import Mathlib

/-!
Verification of `src/public/images/characters/convert.py`.

The script walks a hard-coded mapping from old file names to new file names,
resolves each name against the directory containing the script, and renames
the source to the destination when the source exists, printing one status
line per mapping entry.

The embedding below models the filesystem as a function from absolute path
strings to optional entries (regular files with string content, or symbolic
links, so that the `Path.exists` symlink-following behaviour is visible).
The loop of the script is `runFrom`; a failure oracle `fails` tells which
OS-level rename calls raise, modelling the unhandled-exception behaviour.
-/

/-- A filesystem entry: a regular file with its content, or a symbolic link
holding a target path.  Directories are not needed by the script. -/
inductive Entry : Type where
  | file (content : String) : Entry
  | symlink (target : String) : Entry
deriving DecidableEq

/-- A filesystem: a map from absolute path strings to entries. -/
abbrev FS : Type := String → Option Entry

/-- Linux follows at most 40 symbolic links before giving up (ELOOP),
in which case `Path.exists` reports `False`. -/
def maxSymlinkHops : Nat := 40

/-- Existence of a path, following symbolic links with the given fuel.
A dangling link, or fuel exhaustion (a link loop), yields `false`,
exactly as Python's `Path.exists` does. -/
def existsFuel : Nat → FS → String → Bool
  | 0, _, _ => false
  | fuel + 1, fs, p =>
    match fs p with
    | none => false
    | some (Entry.file _) => true
    | some (Entry.symlink t) => existsFuel fuel fs t

/-- `Path.exists`: the path resolves, through symlinks, to a real entry. -/
def pathExists (fs : FS) (p : String) : Bool :=
  existsFuel (maxSymlinkHops + 1) fs p

/-- `Path.rename`: the entry at `oldP` (the entry itself, links are not
followed for the source) moves to `newP`, silently replacing any entry
already there, and `oldP` afterwards holds nothing. -/
def renameFs (fs : FS) (oldP newP : String) : FS :=
  fun p => if p = newP then fs oldP else if p = oldP then none else fs p

/-- `base_dir / name` for a plain file name: join with the path separator. -/
def joinPath (dir name : String) : String := dir ++ "/" ++ name

/-- The success line printed for a renamed entry. -/
def renamedLine (oldN newN : String) : String :=
  "Renamed: " ++ oldN ++ " -> " ++ newN

/-- The line printed for an absent source. -/
def missingLine (oldN : String) : String :=
  "Missing: " ++ oldN

/-- Result of a run: the final filesystem, the standard-output lines in
order, and whether the run died on an uncaught rename exception. -/
structure RunResult : Type where
  fs : FS
  output : List String
  aborted : Bool

/-- The loop of the script over a list of mapping entries.  `fails` is the
oracle describing which OS rename calls raise; an uncaught exception stops
the run at once, before the corresponding print. -/
def runFrom (fails : String → String → Bool) (base : String) :
    FS → List (String × String) → RunResult
  | fs, [] => { fs := fs, output := [], aborted := false }
  | fs, (oldN, newN) :: rest =>
    if pathExists fs (joinPath base oldN) then
      if fails (joinPath base oldN) (joinPath base newN) then
        { fs := fs, output := [], aborted := true }
      else
        { fs := (runFrom fails base
            (renameFs fs (joinPath base oldN) (joinPath base newN)) rest).fs,
          output := renamedLine oldN newN ::
            (runFrom fails base
              (renameFs fs (joinPath base oldN) (joinPath base newN)) rest).output,
          aborted := (runFrom fails base
            (renameFs fs (joinPath base oldN) (joinPath base newN)) rest).aborted }
    else
      { fs := (runFrom fails base fs rest).fs,
        output := missingLine oldN :: (runFrom fails base fs rest).output,
        aborted := (runFrom fails base fs rest).aborted }

/-- The oracle of a run in which every rename call succeeds. -/
def noFail : String → String → Bool := fun _ _ => false

/-- The single source file name of the hard-coded mapping. -/
def srcName : String := "ANewViewforThomaspromo4.webp"

/-- The single destination file name of the hard-coded mapping. -/
def dstName : String := "show_thomas_harold-percy-thomas_01.webp"

/-- The hard-coded rename mapping of the script, in insertion order. -/
def rename_map : List (String × String) := [(srcName, dstName)]

/-- One run of the whole script from a given filesystem. -/
def runProgram (fails : String → String → Bool) (base : String) (fs : FS) :
    RunResult :=
  runFrom fails base fs rename_map

/-- The filesystem seen by the loop just before it processes entry `i`. -/
def stateAt (fails : String → String → Bool) (base : String) (fs : FS)
    (entries : List (String × String)) (i : Nat) : FS :=
  (runFrom fails base fs (entries.take i)).fs

/-- More fuel finds at least as many paths. -/
theorem existsFuel_mono : ∀ (m n : Nat), m ≤ n → ∀ (fs : FS) (p : String),
    existsFuel m fs p = true → existsFuel n fs p = true := by
  intro m
  induction m with
  | zero =>
    intro n _ fs p h
    simp [existsFuel] at h
  | succ k ih =>
    intro n hmn fs p h
    cases n with
    | zero => exact absurd hmn (Nat.not_succ_le_zero k)
    | succ m2 =>
      have hkn : k ≤ m2 := Nat.succ_le_succ_iff.mp hmn
      cases hfp : fs p with
      | none => simp [existsFuel, hfp] at h
      | some e =>
        cases e with
        | file c => simp [existsFuel, hfp]
        | symlink t =>
          simp [existsFuel, hfp] at h ⊢
          exact ih m2 hkn fs t h

/-- A path holding a regular file exists. -/
theorem pathExists_of_file (fs : FS) (p : String) (c : String)
    (h : fs p = some (Entry.file c)) : pathExists fs p = true := by
  simp [pathExists, existsFuel, h]

/-- A path holding no entry does not exist. -/
theorem pathExists_none (fs : FS) (p : String)
    (h : fs p = none) : pathExists fs p = false := by
  simp [pathExists, existsFuel, h]

/-- A symlink to a non-existing target does not exist: `Path.exists`
follows the link and finds nothing. -/
theorem pathExists_dangling (fs : FS) (p t : String)
    (h : fs p = some (Entry.symlink t)) (ht : pathExists fs t = false) :
    pathExists fs p = false := by
  have hunf : pathExists fs p = existsFuel maxSymlinkHops fs t := by
    simp [pathExists, existsFuel, h]
  cases hx : existsFuel maxSymlinkHops fs t with
  | false => rw [hunf, hx]
  | true =>
    have h1 := existsFuel_mono maxSymlinkHops (maxSymlinkHops + 1)
      (Nat.le_succ _) fs t hx
    simp [pathExists] at ht
    rw [ht] at h1
    simp at h1

/-- Appending to a common left part is injective for strings. -/
theorem string_append_left_cancel (s a b : String) (h : s ++ a = s ++ b) :
    a = b := by
  have hd : s.data ++ a.data = s.data ++ b.data := by
    have hc := congrArg String.data h
    simpa [String.data_append] using hc
  exact String.ext (List.append_cancel_left hd)

/-- Joining distinct names to one directory yields distinct paths. -/
theorem joinPath_inj (dir a b : String) (h : joinPath dir a = joinPath dir b) :
    a = b := by
  have h2 : (dir ++ "/") ++ a = (dir ++ "/") ++ b := by
    simpa [joinPath] using h
  exact string_append_left_cancel _ _ _ h2

/-- The source and destination paths of the hard-coded entry differ. -/
theorem srcPath_ne_dstPath (base : String) :
    joinPath base srcName ≠ joinPath base dstName := by
  intro h
  have h2 := joinPath_inj base srcName dstName h
  simp [srcName, dstName] at h2

/-- When every rename succeeds, the run never aborts. -/
theorem runFrom_noFail_aborted (base : String) :
    ∀ (entries : List (String × String)) (fs : FS),
    (runFrom noFail base fs entries).aborted = false := by
  intro entries
  induction entries with
  | nil => intro fs; rfl
  | cons e rest ih =>
    intro fs
    obtain ⟨oldN, newN⟩ := e
    by_cases hex : pathExists fs (joinPath base oldN) = true
    · simp [runFrom, noFail, hex, ih]
    · simp at hex
      simp [runFrom, noFail, hex, ih]

/-- When every rename succeeds, one output line is printed per entry. -/
theorem runFrom_noFail_length (base : String) :
    ∀ (entries : List (String × String)) (fs : FS),
    (runFrom noFail base fs entries).output.length = entries.length := by
  intro entries
  induction entries with
  | nil => intro fs; rfl
  | cons e rest ih =>
    intro fs
    obtain ⟨oldN, newN⟩ := e
    by_cases hex : pathExists fs (joinPath base oldN) = true
    · simp [runFrom, noFail, hex, ih]
    · simp at hex
      simp [runFrom, noFail, hex, ih]

/-- Entry `i` produces line `i`: a Renamed line when its source exists in
the filesystem reached before entry `i`, else a Missing line; and the
filesystem evolves by exactly that one conditional rename. -/
theorem runFrom_noFail_get (base : String) :
    ∀ (entries : List (String × String)) (i : Nat) (fs : FS)
      (oldN newN : String), entries[i]? = some (oldN, newN) →
    (runFrom noFail base fs entries).output[i]? =
      some (if pathExists (stateAt noFail base fs entries i) (joinPath base oldN)
            then renamedLine oldN newN else missingLine oldN) ∧
    stateAt noFail base fs entries (i + 1) =
      (if pathExists (stateAt noFail base fs entries i) (joinPath base oldN)
       then renameFs (stateAt noFail base fs entries i)
         (joinPath base oldN) (joinPath base newN)
       else stateAt noFail base fs entries i) := by
  intro entries
  induction entries with
  | nil => intro i fs oldN newN h; simp at h
  | cons e rest ih =>
    intro i fs oldN newN h
    obtain ⟨o, n⟩ := e
    cases i with
    | zero =>
      simp at h
      obtain ⟨rfl, rfl⟩ := h
      by_cases hex : pathExists fs (joinPath base o) = true
      · constructor
        · simp [runFrom, noFail, hex, stateAt]
        · simp [stateAt, runFrom, noFail, hex]
      · simp at hex
        constructor
        · simp [runFrom, noFail, hex, stateAt]
        · simp [stateAt, runFrom, noFail, hex]
    | succ j =>
      simp at h
      by_cases hex : pathExists fs (joinPath base o) = true
      · have hih := ih j (renameFs fs (joinPath base o) (joinPath base n))
          oldN newN h
        constructor
        · simpa [runFrom, noFail, hex, stateAt, List.take_succ_cons]
            using hih.1
        · simpa [stateAt, List.take_succ_cons, runFrom, noFail, hex]
            using hih.2
      · simp at hex
        have hih := ih j fs oldN newN h
        constructor
        · simpa [runFrom, noFail, hex, stateAt, List.take_succ_cons]
            using hih.1
        · simpa [stateAt, List.take_succ_cons, runFrom, noFail, hex]
            using hih.2

/-- Paths other than the source and destination paths of some entry are
never touched, whatever the failure oracle does. -/
theorem runFrom_frame (fails : String → String → Bool) (base : String) :
    ∀ (entries : List (String × String)) (fs : FS) (p : String),
    (∀ oldN newN, (oldN, newN) ∈ entries →
      p ≠ joinPath base oldN ∧ p ≠ joinPath base newN) →
    (runFrom fails base fs entries).fs p = fs p := by
  intro entries
  induction entries with
  | nil => intro fs p _; rfl
  | cons e rest ih =>
    intro fs p hp
    obtain ⟨o, n⟩ := e
    have hhead := hp o n (by simp)
    have htail : ∀ oldN newN, (oldN, newN) ∈ rest →
        p ≠ joinPath base oldN ∧ p ≠ joinPath base newN :=
      fun oldN newN hm => hp oldN newN (List.mem_cons_of_mem _ hm)
    by_cases hex : pathExists fs (joinPath base o) = true
    · by_cases hf : fails (joinPath base o) (joinPath base n) = true
      · simp [runFrom, hex, hf]
      · simp at hf
        have hr := ih (renameFs fs (joinPath base o) (joinPath base n)) p htail
        simp [runFrom, hex, hf, hr, renameFs, hhead.1, hhead.2]
    · simp at hex
      have hr := ih fs p htail
      simp [runFrom, hex, hr]

/-- A run over an appended list first runs the left part; when that part
does not abort, the right part continues from the left part's state and the
outputs concatenate. -/
theorem runFrom_append (fails : String → String → Bool) (base : String) :
    ∀ (l1 l2 : List (String × String)) (fs : FS),
    (runFrom fails base fs l1).aborted = false →
    (runFrom fails base fs (l1 ++ l2)).fs =
      (runFrom fails base (runFrom fails base fs l1).fs l2).fs ∧
    (runFrom fails base fs (l1 ++ l2)).output =
      (runFrom fails base fs l1).output ++
        (runFrom fails base (runFrom fails base fs l1).fs l2).output ∧
    (runFrom fails base fs (l1 ++ l2)).aborted =
      (runFrom fails base (runFrom fails base fs l1).fs l2).aborted := by
  intro l1
  induction l1 with
  | nil => intro l2 fs _; exact ⟨rfl, rfl, rfl⟩
  | cons e rest ih =>
    intro l2 fs hab
    obtain ⟨o, n⟩ := e
    by_cases hex : pathExists fs (joinPath base o) = true
    · by_cases hf : fails (joinPath base o) (joinPath base n) = true
      · exfalso
        simp [runFrom, hex, hf] at hab
      · simp at hf
        have hab2 : (runFrom fails base
            (renameFs fs (joinPath base o) (joinPath base n)) rest).aborted
            = false := by
          simpa [runFrom, hex, hf] using hab
        obtain ⟨h1, h2, h3⟩ :=
          ih l2 (renameFs fs (joinPath base o) (joinPath base n)) hab2
        refine ⟨?_, ?_, ?_⟩ <;>
          simp [runFrom, hex, hf, List.cons_append, h1, h2, h3]
    · simp at hex
      have hab2 : (runFrom fails base fs rest).aborted = false := by
        simpa [runFrom, hex] using hab
      obtain ⟨h1, h2, h3⟩ := ih l2 fs hab2
      refine ⟨?_, ?_, ?_⟩ <;>
        simp [runFrom, hex, List.cons_append, h1, h2, h3]

/-- A failing rename on an existing source stops the run at once: nothing
more is printed and the filesystem stays as it was at that entry. -/
theorem runFrom_abortStep (fails : String → String → Bool) (base : String)
    (fs : FS) (oldN newN : String) (post : List (String × String))
    (hex : pathExists fs (joinPath base oldN) = true)
    (hf : fails (joinPath base oldN) (joinPath base newN) = true) :
    (runFrom fails base fs ((oldN, newN) :: post)).fs = fs ∧
    (runFrom fails base fs ((oldN, newN) :: post)).output = [] ∧
    (runFrom fails base fs ((oldN, newN) :: post)).aborted = true := by
  refine ⟨?_, ?_, ?_⟩ <;> simp [runFrom, hex, hf]

/-- A directory holding exactly the source file of the mapping. -/
def fsOnlySrc (base c : String) : FS :=
  fun p => if p = joinPath base srcName then some (Entry.file c) else none

/-- A directory holding exactly a file at the destination name. -/
def fsOnlyDst (base c : String) : FS :=
  fun p => if p = joinPath base dstName then some (Entry.file c) else none

/-- A directory holding exactly a dangling symlink at the source name. -/
def fsDanglingSrc (base : String) : FS :=
  fun p => if p = joinPath base srcName
           then some (Entry.symlink (joinPath base "gone.webp")) else none

/-- The empty directory. -/
def fsEmpty : FS := fun _ => none

/-- The oracle of a run in which every rename call raises. -/
def alwaysFail : String → String → Bool := fun _ _ => true

/-- C1: each entry, processed in mapping order: when `BaseDirectory/old_name`
exists the program renames it to `BaseDirectory/new_name` and emits the
success line carrying both names; otherwise it emits the missing line for
`old_name`; either way the run continues (never fails) over the remaining
entries. -/
theorem spec_C1 (base : String) (fs : FS) (entries : List (String × String))
    (i : Nat) (oldN newN : String) (h : entries[i]? = some (oldN, newN)) :
    (runFrom noFail base fs entries).output[i]? =
      some (if pathExists (stateAt noFail base fs entries i) (joinPath base oldN)
            then renamedLine oldN newN else missingLine oldN) ∧
    stateAt noFail base fs entries (i + 1) =
      (if pathExists (stateAt noFail base fs entries i) (joinPath base oldN)
       then renameFs (stateAt noFail base fs entries i)
         (joinPath base oldN) (joinPath base newN)
       else stateAt noFail base fs entries i) ∧
    (runFrom noFail base fs entries).aborted = false := by
  obtain ⟨h1, h2⟩ := runFrom_noFail_get base entries i fs oldN newN h
  exact ⟨h1, h2, runFrom_noFail_aborted base entries fs⟩

/-- Witness for C1 at the script's own mapping over a directory holding the
source file. -/
theorem spec_C1_witness :
    rename_map[0]? = some (srcName, dstName) ∧
    ((runFrom noFail "/b" (fsOnlySrc "/b" "img") rename_map).output[0]? =
      some (if pathExists (stateAt noFail "/b" (fsOnlySrc "/b" "img") rename_map 0)
              (joinPath "/b" srcName)
            then renamedLine srcName dstName else missingLine srcName) ∧
    stateAt noFail "/b" (fsOnlySrc "/b" "img") rename_map (0 + 1) =
      (if pathExists (stateAt noFail "/b" (fsOnlySrc "/b" "img") rename_map 0)
         (joinPath "/b" srcName)
       then renameFs (stateAt noFail "/b" (fsOnlySrc "/b" "img") rename_map 0)
         (joinPath "/b" srcName) (joinPath "/b" dstName)
       else stateAt noFail "/b" (fsOnlySrc "/b" "img") rename_map 0) ∧
    (runFrom noFail "/b" (fsOnlySrc "/b" "img") rename_map).aborted = false) :=
  ⟨rfl, spec_C1 "/b" (fsOnlySrc "/b" "img") rename_map 0 srcName dstName rfl⟩

/-- C2: a run prints exactly one line per mapping entry, and every printed
line is exactly a `Renamed: <old> -> <new>` line or a `Missing: <old>` line
for some entry of the mapping. -/
theorem spec_C2 (base : String) (fs : FS) (entries : List (String × String))
    (l : String) (hl : l ∈ (runFrom noFail base fs entries).output) :
    (runFrom noFail base fs entries).output.length = entries.length ∧
    ∃ (i : Nat) (oldN newN : String), entries[i]? = some (oldN, newN) ∧
      (l = renamedLine oldN newN ∨ l = missingLine oldN) := by
  refine ⟨runFrom_noFail_length base entries fs, ?_⟩
  obtain ⟨i, hi⟩ := List.mem_iff_getElem?.mp hl
  have hlt : i < (runFrom noFail base fs entries).output.length := by
    by_contra hge
    rw [List.getElem?_eq_none (Nat.le_of_not_lt hge)] at hi
    cases hi
  have hlen : i < entries.length := by
    rwa [runFrom_noFail_length base entries fs] at hlt
  have hpair : entries[i]? =
      some ((entries.get ⟨i, hlen⟩).1, (entries.get ⟨i, hlen⟩).2) := by
    simp [List.getElem?_eq_getElem hlen]
  have hget := (runFrom_noFail_get base entries i fs _ _ hpair).1
  rw [hi] at hget
  simp only [Option.some.injEq] at hget
  refine ⟨i, (entries.get ⟨i, hlen⟩).1, (entries.get ⟨i, hlen⟩).2, hpair, ?_⟩
  by_cases hc : pathExists (stateAt noFail base fs entries i)
      (joinPath base (entries.get ⟨i, hlen⟩).1) = true
  · exact Or.inl (by rw [hget, if_pos hc])
  · exact Or.inr (by rw [hget, if_neg hc])

/-- Witness for C2 at the script's own mapping over a directory holding the
source file, taking the one line the run prints. -/
theorem spec_C2_witness :
    renamedLine srcName dstName ∈
      (runFrom noFail "/b" (fsOnlySrc "/b" "img") rename_map).output ∧
    ((runFrom noFail "/b" (fsOnlySrc "/b" "img") rename_map).output.length
        = rename_map.length ∧
    ∃ (i : Nat) (oldN newN : String), rename_map[i]? = some (oldN, newN) ∧
      (renamedLine srcName dstName = renamedLine oldN newN ∨
       renamedLine srcName dstName = missingLine oldN)) :=
  ⟨by decide,
   spec_C2 "/b" (fsOnlySrc "/b" "img") rename_map
     (renamedLine srcName dstName) (by decide)⟩

/-- C3: when the mapping's source path holds a file before the run, after
the run the source path holds nothing (and no longer exists) and the
destination path holds a file with the identical content (and exists). -/
theorem spec_C3 (base : String) (fs : FS) (c : String)
    (h : fs (joinPath base srcName) = some (Entry.file c)) :
    (runProgram noFail base fs).fs (joinPath base srcName) = none ∧
    pathExists (runProgram noFail base fs).fs (joinPath base srcName) = false ∧
    (runProgram noFail base fs).fs (joinPath base dstName)
      = some (Entry.file c) ∧
    pathExists (runProgram noFail base fs).fs (joinPath base dstName)
      = true := by
  have hex := pathExists_of_file fs (joinPath base srcName) c h
  have hne := srcPath_ne_dstPath base
  have hfs : (runProgram noFail base fs).fs =
      renameFs fs (joinPath base srcName) (joinPath base dstName) := by
    simp [runProgram, rename_map, runFrom, noFail, hex]
  refine ⟨?_, ?_, ?_, ?_⟩
  · rw [hfs]; simp [renameFs, hne]
  · rw [hfs]
    apply pathExists_none
    simp [renameFs, hne]
  · rw [hfs]; simp [renameFs, h]
  · rw [hfs]
    exact pathExists_of_file _ _ c (by simp [renameFs, h])

/-- Witness for C3 over a directory holding exactly the source file. -/
theorem spec_C3_witness :
    fsOnlySrc "/b" "img" (joinPath "/b" srcName) = some (Entry.file "img") ∧
    ((runProgram noFail "/b" (fsOnlySrc "/b" "img")).fs (joinPath "/b" srcName)
        = none ∧
    pathExists (runProgram noFail "/b" (fsOnlySrc "/b" "img")).fs
        (joinPath "/b" srcName) = false ∧
    (runProgram noFail "/b" (fsOnlySrc "/b" "img")).fs (joinPath "/b" dstName)
        = some (Entry.file "img") ∧
    pathExists (runProgram noFail "/b" (fsOnlySrc "/b" "img")).fs
        (joinPath "/b" dstName) = true) :=
  ⟨by decide, spec_C3 "/b" (fsOnlySrc "/b" "img") "img" (by decide)⟩

/-- Counterexample to C4 as stated: when a file already sits at the
destination name and the source is absent, the run takes the Missing branch
and the destination path still exists afterwards, contradicting the claim
that neither the source nor the destination path exists after the run. -/
theorem spec_C4_counterexample :
    pathExists (fsOnlyDst "/b" "keep") (joinPath "/b" srcName) = false ∧
    (runProgram noFail "/b" (fsOnlyDst "/b" "keep")).output
      = [missingLine srcName] ∧
    pathExists (runProgram noFail "/b" (fsOnlyDst "/b" "keep")).fs
      (joinPath "/b" dstName) = true := by
  refine ⟨by decide, by decide, by decide⟩

/-- C4 (amended): when the mapping's source path does not exist before the
run, the run changes nothing at all on the filesystem and emits the Missing
line for that entry; in particular, if the destination path also did not
exist before the run, then afterwards neither the source nor the
destination path exists. -/
theorem spec_C4 (base : String) (fs : FS)
    (h : pathExists fs (joinPath base srcName) = false) :
    (runProgram noFail base fs).fs = fs ∧
    (runProgram noFail base fs).output = [missingLine srcName] ∧
    (pathExists fs (joinPath base dstName) = false →
      pathExists (runProgram noFail base fs).fs (joinPath base srcName)
          = false ∧
      pathExists (runProgram noFail base fs).fs (joinPath base dstName)
          = false) := by
  have hfs : (runProgram noFail base fs).fs = fs := by
    simp [runProgram, rename_map, runFrom, h]
  refine ⟨hfs, ?_, ?_⟩
  · simp [runProgram, rename_map, runFrom, h]
  · intro hd
    rw [hfs]
    exact ⟨h, hd⟩

/-- Witness for C4 (amended) over the empty directory. -/
theorem spec_C4_witness :
    pathExists fsEmpty (joinPath "/b" srcName) = false ∧
    ((runProgram noFail "/b" fsEmpty).fs = fsEmpty ∧
    (runProgram noFail "/b" fsEmpty).output = [missingLine srcName] ∧
    (pathExists fsEmpty (joinPath "/b" dstName) = false →
      pathExists (runProgram noFail "/b" fsEmpty).fs (joinPath "/b" srcName)
          = false ∧
      pathExists (runProgram noFail "/b" fsEmpty).fs (joinPath "/b" dstName)
          = false)) :=
  ⟨by decide, spec_C4 "/b" fsEmpty (by decide)⟩

/-- C5: from a state where the mapping's source exists, the first run
renames it (printing the Renamed line), and a second run immediately after
prints the Missing line for the entry and leaves the filesystem exactly as
the first run left it. -/
theorem spec_C5 (base : String) (fs : FS)
    (h : pathExists fs (joinPath base srcName) = true) :
    (runProgram noFail base fs).output = [renamedLine srcName dstName] ∧
    (runProgram noFail base fs).fs =
      renameFs fs (joinPath base srcName) (joinPath base dstName) ∧
    (runProgram noFail base (runProgram noFail base fs).fs).output
      = [missingLine srcName] ∧
    (runProgram noFail base (runProgram noFail base fs).fs).fs
      = (runProgram noFail base fs).fs := by
  have hne := srcPath_ne_dstPath base
  have hfs : (runProgram noFail base fs).fs =
      renameFs fs (joinPath base srcName) (joinPath base dstName) := by
    simp [runProgram, rename_map, runFrom, noFail, h]
  have hout1 : (runProgram noFail base fs).output
      = [renamedLine srcName dstName] := by
    simp [runProgram, rename_map, runFrom, noFail, h]
  have hgone : (runProgram noFail base fs).fs (joinPath base srcName)
      = none := by
    rw [hfs]; simp [renameFs, hne]
  have h2 : pathExists (runProgram noFail base fs).fs (joinPath base srcName)
      = false := pathExists_none _ _ hgone
  refine ⟨hout1, hfs, ?_, ?_⟩
  · generalize hg : (runProgram noFail base fs).fs = fs1 at h2 ⊢
    simp [runProgram, rename_map, runFrom, h2]
  · generalize hg : (runProgram noFail base fs).fs = fs1 at h2 ⊢
    simp [runProgram, rename_map, runFrom, h2]

/-- Witness for C5 over a directory holding exactly the source file. -/
theorem spec_C5_witness :
    pathExists (fsOnlySrc "/b" "img") (joinPath "/b" srcName) = true ∧
    ((runProgram noFail "/b" (fsOnlySrc "/b" "img")).output
        = [renamedLine srcName dstName] ∧
    (runProgram noFail "/b" (fsOnlySrc "/b" "img")).fs =
      renameFs (fsOnlySrc "/b" "img") (joinPath "/b" srcName)
        (joinPath "/b" dstName) ∧
    (runProgram noFail "/b"
        (runProgram noFail "/b" (fsOnlySrc "/b" "img")).fs).output
      = [missingLine srcName] ∧
    (runProgram noFail "/b"
        (runProgram noFail "/b" (fsOnlySrc "/b" "img")).fs).fs
      = (runProgram noFail "/b" (fsOnlySrc "/b" "img")).fs) :=
  ⟨by decide, spec_C5 "/b" (fsOnlySrc "/b" "img") (by decide)⟩

/-- C6: entries are processed in the mapping's insertion order and the
output lines appear in exactly that order, the line at position `i` being
the one generated by entry `i`, with one line per entry. -/
theorem spec_C6 (base : String) (fs : FS) (entries : List (String × String))
    (i : Nat) (oldN newN : String) (h : entries[i]? = some (oldN, newN)) :
    (runFrom noFail base fs entries).output.length = entries.length ∧
    ∃ l, (runFrom noFail base fs entries).output[i]? = some l ∧
      (l = renamedLine oldN newN ∨ l = missingLine oldN) := by
  refine ⟨runFrom_noFail_length base entries fs, ?_⟩
  have hget := (runFrom_noFail_get base entries i fs oldN newN h).1
  by_cases hc : pathExists (stateAt noFail base fs entries i)
      (joinPath base oldN) = true
  · exact ⟨renamedLine oldN newN, by rw [hget, if_pos hc], Or.inl rfl⟩
  · exact ⟨missingLine oldN, by rw [hget, if_neg hc], Or.inr rfl⟩

/-- Witness for C6 at the script's own mapping over the empty directory. -/
theorem spec_C6_witness :
    rename_map[0]? = some (srcName, dstName) ∧
    ((runFrom noFail "/b" fsEmpty rename_map).output.length
        = rename_map.length ∧
    ∃ l, (runFrom noFail "/b" fsEmpty rename_map).output[0]? = some l ∧
      (l = renamedLine srcName dstName ∨ l = missingLine srcName)) :=
  ⟨rfl, spec_C6 "/b" fsEmpty rename_map 0 srcName dstName rfl⟩

/-- C7: when the OS rename call raises at some entry whose source exists,
the run stops right there: it reports aborted, the filesystem keeps every
rename completed for earlier entries and nothing else, and no output and no
rename is produced for that entry or any later one. -/
theorem spec_C7 (fails : String → String → Bool) (base : String) (fs : FS)
    (pre post : List (String × String)) (oldN newN : String)
    (hab : (runFrom fails base fs pre).aborted = false)
    (hex : pathExists (runFrom fails base fs pre).fs (joinPath base oldN)
      = true)
    (hf : fails (joinPath base oldN) (joinPath base newN) = true) :
    (runFrom fails base fs (pre ++ (oldN, newN) :: post)).aborted = true ∧
    (runFrom fails base fs (pre ++ (oldN, newN) :: post)).fs
      = (runFrom fails base fs pre).fs ∧
    (runFrom fails base fs (pre ++ (oldN, newN) :: post)).output
      = (runFrom fails base fs pre).output := by
  obtain ⟨h1, h2, h3⟩ :=
    runFrom_append fails base pre ((oldN, newN) :: post) fs hab
  obtain ⟨g1, g2, g3⟩ := runFrom_abortStep fails base
    (runFrom fails base fs pre).fs oldN newN post hex hf
  refine ⟨?_, ?_, ?_⟩
  · rw [h3, g3]
  · rw [h1, g1]
  · rw [h2, g2]
    simp

/-- Witness for C7: a raising rename at the script's one entry, with an
empty list of earlier entries. -/
theorem spec_C7_witness :
    (runFrom alwaysFail "/b" (fsOnlySrc "/b" "img") []).aborted = false ∧
    pathExists (runFrom alwaysFail "/b" (fsOnlySrc "/b" "img") []).fs
      (joinPath "/b" srcName) = true ∧
    alwaysFail (joinPath "/b" srcName) (joinPath "/b" dstName) = true ∧
    ((runFrom alwaysFail "/b" (fsOnlySrc "/b" "img")
        ([] ++ (srcName, dstName) :: [])).aborted = true ∧
    (runFrom alwaysFail "/b" (fsOnlySrc "/b" "img")
        ([] ++ (srcName, dstName) :: [])).fs
      = (runFrom alwaysFail "/b" (fsOnlySrc "/b" "img") []).fs ∧
    (runFrom alwaysFail "/b" (fsOnlySrc "/b" "img")
        ([] ++ (srcName, dstName) :: [])).output
      = (runFrom alwaysFail "/b" (fsOnlySrc "/b" "img") []).output) :=
  ⟨rfl, by decide, rfl,
   spec_C7 alwaysFail "/b" (fsOnlySrc "/b" "img") [] [] srcName dstName
     rfl (by decide) rfl⟩

/-- C8: a dangling symlink at the source path is reported Missing: a
filesystem entry is present there, yet `Path.exists` follows the link,
finds nothing, and the program performs no rename and changes nothing. -/
theorem spec_C8 (base : String) (fs : FS) (t : String)
    (h : fs (joinPath base srcName) = some (Entry.symlink t))
    (ht : pathExists fs t = false) :
    pathExists fs (joinPath base srcName) = false ∧
    (runProgram noFail base fs).output = [missingLine srcName] ∧
    (runProgram noFail base fs).fs = fs := by
  have hx := pathExists_dangling fs (joinPath base srcName) t h ht
  refine ⟨hx, ?_, ?_⟩
  · simp [runProgram, rename_map, runFrom, hx]
  · simp [runProgram, rename_map, runFrom, hx]

/-- Witness for C8 over a directory holding exactly a dangling symlink at
the source name. -/
theorem spec_C8_witness :
    fsDanglingSrc "/b" (joinPath "/b" srcName)
      = some (Entry.symlink (joinPath "/b" "gone.webp")) ∧
    pathExists (fsDanglingSrc "/b") (joinPath "/b" "gone.webp") = false ∧
    (pathExists (fsDanglingSrc "/b") (joinPath "/b" srcName) = false ∧
    (runProgram noFail "/b" (fsDanglingSrc "/b")).output
      = [missingLine srcName] ∧
    (runProgram noFail "/b" (fsDanglingSrc "/b")).fs = fsDanglingSrc "/b") :=
  ⟨by decide, by decide,
   spec_C8 "/b" (fsDanglingSrc "/b") (joinPath "/b" "gone.webp")
     (by decide) (by decide)⟩

/-- C9: a path that is neither the source path nor the destination path of
some mapping entry is never modified by a run, whatever the rename calls
do. -/
theorem spec_C9 (fails : String → String → Bool) (base : String) (fs : FS)
    (p : String)
    (hp : ∀ oldN newN, (oldN, newN) ∈ rename_map →
      p ≠ joinPath base oldN ∧ p ≠ joinPath base newN) :
    (runProgram fails base fs).fs p = fs p :=
  runFrom_frame fails base rename_map fs p hp

/-- Witness for C9 at an unrelated path of the directory. -/
theorem spec_C9_witness :
    (∀ oldN newN, (oldN, newN) ∈ rename_map →
      ("/b/other.webp" : String) ≠ joinPath "/b" oldN ∧
      ("/b/other.webp" : String) ≠ joinPath "/b" newN) ∧
    (runProgram noFail "/b" (fsOnlySrc "/b" "img")).fs "/b/other.webp"
      = fsOnlySrc "/b" "img" "/b/other.webp" := by
  have hp : ∀ oldN newN, (oldN, newN) ∈ rename_map →
      ("/b/other.webp" : String) ≠ joinPath "/b" oldN ∧
      ("/b/other.webp" : String) ≠ joinPath "/b" newN := by
    intro oldN newN hm
    simp [rename_map] at hm
    obtain ⟨rfl, rfl⟩ := hm
    exact ⟨by decide, by decide⟩
  exact ⟨hp, spec_C9 noFail "/b" (fsOnlySrc "/b" "img") "/b/other.webp" hp⟩

/-- C10: the program is deterministic: from identical initial filesystems,
with the rename calls succeeding or raising identically, two runs print the
identical output and leave the identical filesystem (and abort state). -/
theorem spec_C10 (fails1 fails2 : String → String → Bool)
    (base1 base2 : String) (fs1 fs2 : FS)
    (hf : fails1 = fails2) (hb : base1 = base2) (hfs : fs1 = fs2) :
    (runProgram fails1 base1 fs1).output
      = (runProgram fails2 base2 fs2).output ∧
    (runProgram fails1 base1 fs1).fs = (runProgram fails2 base2 fs2).fs ∧
    (runProgram fails1 base1 fs1).aborted
      = (runProgram fails2 base2 fs2).aborted := by
  subst hf
  subst hb
  subst hfs
  exact ⟨rfl, rfl, rfl⟩

/-- Witness for C10 at a concrete directory. -/
theorem spec_C10_witness :
    noFail = noFail ∧ ("/b" : String) = "/b" ∧
    fsOnlySrc "/b" "img" = fsOnlySrc "/b" "img" ∧
    ((runProgram noFail "/b" (fsOnlySrc "/b" "img")).output
      = (runProgram noFail "/b" (fsOnlySrc "/b" "img")).output ∧
    (runProgram noFail "/b" (fsOnlySrc "/b" "img")).fs
      = (runProgram noFail "/b" (fsOnlySrc "/b" "img")).fs ∧
    (runProgram noFail "/b" (fsOnlySrc "/b" "img")).aborted
      = (runProgram noFail "/b" (fsOnlySrc "/b" "img")).aborted) :=
  ⟨rfl, rfl, rfl,
   spec_C10 noFail noFail "/b" "/b" (fsOnlySrc "/b" "img")
     (fsOnlySrc "/b" "img") rfl rfl rfl⟩
